import Mathlib

/-!
Shallow embedding of the ctlstore sidecar request-handling layer
(`pkg/sidecar/sidecar.go`): key codec, request handlers, the error
translator, and the row-limit logic of the prefix-scan handler.

Go values of type `interface{}` are modelled by `GoVal`; Go errors are
modelled by a structured type `HErr` whose constructors correspond
one-to-one to the error construction sites in the source, with a `text`
function reproducing the Go error strings (`errors.Wrap` prepends
`"ctx: "`, `errors.Errorf` formats the message).  The reader capability
is external to the sidecar, so a handler is a pure function of the
outcome its reader calls would produce; the observable effects of a
handler run (reader invocations, cursor iteration, cursor close, body
writes) are recorded in an event trace.
-/

set_option autoImplicit false

namespace CtlstoreSidecar

/-- An untyped Go value (`interface{}`), as it appears in decoded JSON
key segments and native key arguments. `nilV` is the nil interface. -/
inductive GoVal where
  | nilV
  | boolV (b : Bool)
  | num (q : Rat)
  | str (s : String)
  | bytes (b : List Nat)
  deriving DecidableEq, Repr

/-- A row: a column-name to value mapping (`map[string]interface{}`). -/
def Row : Type := List (String × GoVal)

instance : DecidableEq Row := by
  unfold Row
  infer_instance

instance : Repr Row := by
  unfold Row
  infer_instance

/-- `Key` from sidecar.go: a primary key segment with a scalar `Value`
(`interface{}`, nil when absent) and a `Binary` field (`[]byte`, which
is either nil — modelled `none` — or a byte slice, possibly empty). -/
structure Key where
  Value : GoVal
  Binary : Option (List Nat)
  deriving DecidableEq, Repr

/-- `Key.ToValue` from sidecar.go:
`switch { case k.Binary != nil: return k.Binary; default: return k.Value }`. -/
def Key.ToValue (k : Key) : GoVal :=
  match k.Binary with
  | some b => GoVal.bytes b
  | none => k.Value

/-- `ReadRequest` from sidecar.go: the decoded POST body, an ordered
sequence of key segments. -/
structure ReadRequest where
  Key : List Key
  deriving DecidableEq, Repr

/-- `keysToInterface` from sidecar.go: starts from a nil slice and
appends `k.ToValue()` for each key in order. -/
def keysToInterface (keys : List Key) : List GoVal :=
  keys.foldl (fun res k => res ++ [k.ToValue]) []

/-- A handler-reported error.  Each constructor corresponds to one error
construction site in sidecar.go; the carried strings are the texts of
the underlying (external) errors being wrapped or returned. -/
inductive HErr where
  /-- `errors.Wrap(err, "decode body")` on a JSON body decode failure. -/
  | decodeBody (e : String)
  /-- An error returned verbatim from a reader call or from `rows.Err()`. -/
  | readerErr (e : String)
  /-- `errors.Wrap(err, "scan")` on a row decode failure inside the scan loop. -/
  | scanErr (e : String)
  /-- `errors.Errorf("max row count (%d) exceeded", s.maxRows)`. -/
  | rowLimit (n : Int)
  /-- `errors.Wrap(err, "get ledger latency")`. -/
  | ledgerLatencyErr (e : String)
  /-- `errors.Wrap(err, "healthcheck")`. -/
  | healthcheckErr (e : String)
  deriving DecidableEq, Repr

/-- The Go error message of a handler error: `errors.Wrap` produces
`"ctx: <cause>"`, `errors.Errorf` formats its message. -/
def HErr.text : HErr → String
  | .decodeBody e => "decode body: " ++ e
  | .readerErr e => e
  | .scanErr e => "scan: " ++ e
  | .rowLimit n => "max row count (" ++ toString n ++ ") exceeded"
  | .ledgerLatencyErr e => "get ledger latency: " ++ e
  | .healthcheckErr e => "healthcheck: " ++ e

/-- A response body as written by the sidecar: empty, plain error text
(`http.Error`), or the JSON serialization of a list / map of values. -/
inductive HTTPBody where
  | empty
  | text (s : String)
  | jsonArray (rows : List Row)
  | jsonObject (fields : List (String × GoVal))
  deriving DecidableEq, Repr

/-- A finalized HTTP response: status code, response headers, body. -/
structure HTTPResponse where
  status : Nat
  headers : List (String × String)
  body : HTTPBody
  deriving DecidableEq, Repr

/-- An observable effect of a handler run. -/
inductive Event where
  /-- Invocation of `Reader.GetRowByKey` with the given arguments. -/
  | readerGetRowByKey (family table : String) (key : List GoVal)
  /-- Invocation of `Reader.GetRowsByKeyPrefix` with the given arguments. -/
  | readerGetRowsByKeyPfx (family table : String) (key : List GoVal)
  /-- Invocation of `Reader.GetLedgerLatency`. -/
  | readerGetLedgerLatency
  /-- A `rows.Next()` call on the scan cursor. -/
  | cursorNext
  /-- A `rows.Scan(out)` call on the scan cursor (fetch and decode of one row). -/
  | cursorScan
  /-- The deferred `rows.Close()` call on the scan cursor. -/
  | cursorClose
  /-- A write of the given body to the response by the handler. -/
  | writeBody (b : HTTPBody)
  deriving DecidableEq, Repr

/-- The outcome of running one handler: the event trace, what the
handler itself wrote to the response (if anything), and the error it
returned to the error-translating wrapper. -/
structure HandlerOut where
  events : List Event
  written : Option HTTPResponse
  err : Option HErr
  deriving DecidableEq, Repr

/-- The error translator `handleErr` from `New` in sidecar.go, composed
with the serving layer's defaults: a returned error becomes
`http.Error(w, err.Error(), 500)`; otherwise the handler's own writes
stand, and a handler that wrote nothing yields the implicit 200 with an
empty body. -/
def handleErr (out : HandlerOut) : HTTPResponse :=
  match out.err with
  | some e => { status := 500, headers := [], body := .text e.text }
  | none =>
      match out.written with
      | some resp => resp
      | none => { status := 200, headers := [], body := .empty }

/-- `time.Duration.Seconds()` from the Go standard library (the duration
`d` is in nanoseconds; Go divides with truncation toward zero and adds
the fractional part as a float, modelled exactly as a rational):
`sec := d / 1e9; nsec := d % 1e9; return float64(sec) + float64(nsec)/1e9`. -/
def durationSeconds (d : Int) : Rat :=
  ((d.tdiv 1000000000 : Int) : Rat) + ((d.tmod 1000000000 : Int) : Rat) / 1000000000

/-- `Sidecar.getLedgerLatency` from sidecar.go, as a function of the
outcome of the reader's `GetLedgerLatency` call (a duration in
nanoseconds, or an error text). -/
def getLedgerLatency (latency : Except String Int) : HandlerOut :=
  match latency with
  | .error e =>
      { events := [.readerGetLedgerLatency]
        written := none
        err := some (.ledgerLatencyErr e) }
  | .ok d =>
      let res : List (String × GoVal) :=
        [("value", .num (durationSeconds d)), ("unit", .str "seconds")]
      { events := [.readerGetLedgerLatency, .writeBody (.jsonObject res)]
        written := some { status := 200, headers := [], body := .jsonObject res }
        err := none }

/-- `Sidecar.healthcheck` from sidecar.go: queries the ledger latency,
discards the value, and returns `errors.Wrap(err, "healthcheck")`
(which is nil when `err` is nil). -/
def healthcheck (latency : Except String Int) : HandlerOut :=
  { events := [.readerGetLedgerLatency]
    written := none
    err :=
      match latency with
      | .error e => some (.healthcheckErr e)
      | .ok _ => none }

/-- `Sidecar.ping` from sidecar.go: `return s.healthcheck(w, r)`. -/
def ping (latency : Except String Int) : HandlerOut :=
  healthcheck latency

/-- `Sidecar.getRowByKey` from sidecar.go, as a function of the path
variables, the outcome of decoding the JSON body, and the outcome the
reader's `GetRowByKey` call would produce (found flag and the row
written into `out`, or an error text). -/
def getRowByKey (family table : String) (body : Except String ReadRequest)
    (lookup : Except String (Bool × Row)) : HandlerOut :=
  match body with
  | .error e => { events := [], written := none, err := some (.decodeBody e) }
  | .ok rr =>
      let callEv := Event.readerGetRowByKey family table (keysToInterface rr.Key)
      match lookup with
      | .error e => { events := [callEv], written := none, err := some (.readerErr e) }
      | .ok (found, out) =>
          if found then
            { events := [callEv, .writeBody (.jsonObject out)]
              written := some { status := 200, headers := [], body := .jsonObject out }
              err := none }
          else
            { events := [callEv]
              written := some { status := 404
                                headers := [("X-Ctlstore", "Not Found")]
                                body := .empty }
              err := none }

deriving instance DecidableEq for Except

/-- The behaviour of a `*ctlstore.Rows` cursor obtained from
`Reader.GetRowsByKeyPrefix`: the finite sequence of rows it yields
(`Next()` returning true that many times, each followed by a `Scan`
that either decodes a row or fails with an error text), and the value
`rows.Err()` reports once `Next()` has returned false. -/
structure RowsCursor where
  entries : List (Except String Row)
  finalErr : Option String
  deriving DecidableEq, Repr

/-- The `for rows.Next() { ... }` loop of `Sidecar.getRowsByKeyPrefix`:
scans each yielded row into a map, appends it to `res`, and after each
append aborts with the row-limit error when `maxRows > 0 && len(res) >
maxRows`; a scan failure aborts with `errors.Wrap(err, "scan")`.
Returns the cursor events of the loop and either the accumulated list
or the aborting error. -/
def scanLoop (maxRows : Int) :
    List (Except String Row) → List Row → List Event × Except HErr (List Row)
  | [], acc => ([Event.cursorNext], .ok acc)
  | entry :: rest, acc =>
      match entry with
      | .error e => ([Event.cursorNext, Event.cursorScan], .error (.scanErr e))
      | .ok row =>
          if maxRows > 0 ∧ (((acc ++ [row]).length : Int) > maxRows) then
            ([Event.cursorNext, Event.cursorScan], .error (.rowLimit maxRows))
          else
            (Event.cursorNext :: Event.cursorScan :: (scanLoop maxRows rest (acc ++ [row])).1,
             (scanLoop maxRows rest (acc ++ [row])).2)

/-- `Sidecar.getRowsByKeyPrefix` from sidecar.go, as a function of the
configured `maxRows`, the path variables, the outcome of decoding the
JSON body, and the cursor the reader's `GetRowsByKeyPrefix` call would
produce (or its error text).  The deferred `rows.Close()` runs on every
exit path after acquisition, after any body write. -/
def getRowsByKeyPrefix (maxRows : Int) (family table : String)
    (body : Except String ReadRequest)
    (scan : Except String RowsCursor) : HandlerOut :=
  match body with
  | .error e => { events := [], written := none, err := some (.decodeBody e) }
  | .ok rr =>
      let callEv := Event.readerGetRowsByKeyPfx family table (keysToInterface rr.Key)
      match scan with
      | .error e => { events := [callEv], written := none, err := some (.readerErr e) }
      | .ok rows =>
          let loop := scanLoop maxRows rows.entries []
          match loop.2 with
          | .error he =>
              { events := callEv :: loop.1 ++ [.cursorClose]
                written := none
                err := some he }
          | .ok res =>
              match rows.finalErr with
              | some e =>
                  { events := callEv :: loop.1 ++ [.cursorClose]
                    written := none
                    err := some (.readerErr e) }
              | none =>
                  { events := callEv :: loop.1 ++ [.writeBody (.jsonArray res), .cursorClose]
                    written := some { status := 200, headers := [], body := .jsonArray res }
                    err := none }

/-- Number of occurrences of an event in a trace. -/
def countEvent (e : Event) : List Event → Nat
  | [] => 0
  | x :: xs => (if x = e then 1 else 0) + countEvent e xs

theorem keysToInterface_foldl_general (keys : List Key) :
    ∀ acc : List GoVal,
      keys.foldl (fun res k => res ++ [k.ToValue]) acc = acc ++ keys.map Key.ToValue := by
  induction keys with
  | nil => intro acc; simp
  | cons k rest ih =>
      intro acc
      simp [List.foldl_cons, ih]

/-- `keysToInterface` is exactly `map ToValue`. -/
theorem keysToInterface_eq_map (keys : List Key) :
    keysToInterface keys = keys.map Key.ToValue := by
  simpa using keysToInterface_foldl_general keys []

theorem countEvent_cons (e x : Event) (l : List Event) :
    countEvent e (x :: l) = (if x = e then 1 else 0) + countEvent e l :=
  rfl

theorem countEvent_append (e : Event) (l1 l2 : List Event) :
    countEvent e (l1 ++ l2) = countEvent e l1 + countEvent e l2 := by
  induction l1 with
  | nil => simp [countEvent]
  | cons x xs ih => simp [countEvent, ih]; omega

theorem countEvent_eq_zero (e : Event) (l : List Event) (h : ∀ x ∈ l, x ≠ e) :
    countEvent e l = 0 := by
  induction l with
  | nil => rfl
  | cons x xs ih =>
      simp only [countEvent]
      rw [if_neg (h x (by simp))]
      simpa using ih (fun y hy => h y (by simp [hy]))

/-- Every event emitted by the scan loop is a cursor `Next` or `Scan`. -/
theorem scanLoop_events_mem (maxRows : Int) :
    ∀ (entries : List (Except String Row)) (acc : List Row),
      ∀ e ∈ (scanLoop maxRows entries acc).1,
        e = Event.cursorNext ∨ e = Event.cursorScan := by
  intro entries
  induction entries with
  | nil =>
      intro acc e he
      simp only [scanLoop, List.mem_singleton] at he
      exact Or.inl he
  | cons entry rest ih =>
      intro acc e he
      match entry with
      | .error msg =>
          simp only [scanLoop, List.mem_cons, List.mem_singleton] at he
          rcases he with h | h | h
          · exact Or.inl h
          · exact Or.inr h
          · exact absurd h (by simp at h)
      | .ok row =>
          simp only [scanLoop] at he
          by_cases hcond : maxRows > 0 ∧ (((acc ++ [row]).length : Int) > maxRows)
          · rw [if_pos hcond] at he
            simp only [List.mem_cons, List.mem_singleton] at he
            rcases he with h | h | h
            · exact Or.inl h
            · exact Or.inr h
            · exact absurd h (by simp at h)
          · rw [if_neg hcond] at he
            simp only [List.mem_cons] at he
            rcases he with h | h | h
            · exact Or.inl h
            · exact Or.inr h
            · exact ih (acc ++ [row]) e h

/-- When the row-limit guard never fires and every scan succeeds, the
loop accumulates all rows in order. -/
theorem scanLoop_map_ok_le (maxRows : Int) :
    ∀ (rows : List Row) (acc : List Row),
      (¬ 0 < maxRows) ∨ ((acc.length : Int) + rows.length ≤ maxRows) →
      (scanLoop maxRows (rows.map .ok) acc).2 = .ok (acc ++ rows) := by
  intro rows
  induction rows with
  | nil => intro acc _; simp [scanLoop]
  | cons row rest ih =>
      intro acc h
      have hlen : ((acc ++ [row]).length : Int) = (acc.length : Int) + 1 := by
        simp
      have hrest : (((row :: rest).length : Int)) = ((rest.length : Int)) + 1 := by
        simp
      have hcond : ¬ (maxRows > 0 ∧ (((acc ++ [row]).length : Int) > maxRows)) := by
        rcases h with h | h
        · exact fun hc => h hc.1
        · intro hc
          omega
      simp only [List.map_cons, scanLoop, if_neg hcond]
      have h' : (¬ 0 < maxRows) ∨ (((acc ++ [row]).length : Int) + rest.length ≤ maxRows) := by
        rcases h with h | h
        · exact Or.inl h
        · exact Or.inr (by omega)
      show (scanLoop maxRows (rest.map .ok) (acc ++ [row])).2 = .ok (acc ++ row :: rest)
      rw [ih (acc ++ [row]) h']
      simp

/-- When the limit is armed and the cursor yields too many rows, the
loop aborts with the row-limit error after decoding exactly one row
past the remaining allowance. -/
theorem scanLoop_map_ok_abort (maxRows : Int) (hpos : 0 < maxRows) :
    ∀ (rows : List Row) (acc : List Row),
      (acc.length : Int) ≤ maxRows →
      maxRows < (acc.length : Int) + rows.length →
      (scanLoop maxRows (rows.map .ok) acc).2 = .error (.rowLimit maxRows) ∧
      (countEvent Event.cursorScan (scanLoop maxRows (rows.map .ok) acc).1 : Int)
        = maxRows - acc.length + 1 := by
  intro rows
  induction rows with
  | nil =>
      intro acc h1 h2
      simp only [List.length_nil] at h2
      omega
  | cons row rest ih =>
      intro acc h1 h2
      have hlen : ((acc ++ [row]).length : Int) = (acc.length : Int) + 1 := by
        simp
      have hrest : (((row :: rest).length : Int)) = ((rest.length : Int)) + 1 := by
        simp
      by_cases hcond : (((acc ++ [row]).length : Int) > maxRows)
      · have hacc : (acc.length : Int) = maxRows := by omega
        simp only [List.map_cons, scanLoop]
        rw [if_pos ⟨hpos, hcond⟩]
        refine ⟨rfl, ?_⟩
        show (countEvent Event.cursorScan [Event.cursorNext, Event.cursorScan] : Int)
          = maxRows - (acc.length : Int) + 1
        simp [countEvent]
        omega
      · have hcond' : ¬ (maxRows > 0 ∧ (((acc ++ [row]).length : Int) > maxRows)) :=
          fun hc => hcond hc.2
        simp only [List.map_cons, scanLoop, if_neg hcond']
        have h1' : ((acc ++ [row]).length : Int) ≤ maxRows := by omega
        have h2' : maxRows < ((acc ++ [row]).length : Int) + rest.length := by omega
        obtain ⟨hres, hcount⟩ := ih (acc ++ [row]) h1' h2'
        constructor
        · show (scanLoop maxRows (rest.map .ok) (acc ++ [row])).2
            = .error (.rowLimit maxRows)
          exact hres
        · show (countEvent Event.cursorScan
              (Event.cursorNext :: Event.cursorScan ::
                (scanLoop maxRows (rest.map .ok) (acc ++ [row])).1) : Int)
            = maxRows - (acc.length : Int) + 1
          simp only [countEvent]
          norm_num
          push_cast
          omega

/-- With a non-positive configured ceiling the loop can never produce
the row-limit error. -/
theorem scanLoop_no_rowLimit (maxRows : Int) (hN : maxRows ≤ 0) :
    ∀ (entries : List (Except String Row)) (acc : List Row) (m : Int),
      (scanLoop maxRows entries acc).2 ≠ .error (.rowLimit m) := by
  intro entries
  induction entries with
  | nil => intro acc m; simp [scanLoop]
  | cons entry rest ih =>
      intro acc m
      match entry with
      | .error msg => simp [scanLoop]
      | .ok row =>
          have hcond : ¬ (maxRows > 0 ∧ (((acc ++ [row]).length : Int) > maxRows)) := by
            intro hc; omega
          simp only [scanLoop, if_neg hcond]
          exact ih (acc ++ [row]) m

theorem scanLoop_count_close (maxRows : Int) (entries : List (Except String Row))
    (acc : List Row) :
    countEvent Event.cursorClose (scanLoop maxRows entries acc).1 = 0 :=
  countEvent_eq_zero _ _ (fun x hx => by
    rcases scanLoop_events_mem maxRows entries acc x hx with h | h <;> simp [h])

theorem scanLoop_count_writeBody (maxRows : Int) (entries : List (Except String Row))
    (acc : List Row) (b : HTTPBody) :
    countEvent (Event.writeBody b) (scanLoop maxRows entries acc).1 = 0 :=
  countEvent_eq_zero _ _ (fun x hx => by
    rcases scanLoop_events_mem maxRows entries acc x hx with h | h <;> simp [h])

theorem scanLoop_not_mem_writeBody (maxRows : Int) (entries : List (Except String Row))
    (acc : List Row) (b : HTTPBody) :
    Event.writeBody b ∉ (scanLoop maxRows entries acc).1 := by
  intro hmem
  rcases scanLoop_events_mem maxRows entries acc _ hmem with h | h <;> simp at h

/-- Shape of the prefix-scan handler when the loop aborts with an error. -/
theorem getRBKP_loop_error (maxRows : Int) (family table : String) (rr : ReadRequest)
    (rows : RowsCursor) (he : HErr)
    (h : (scanLoop maxRows rows.entries []).2 = .error he) :
    getRowsByKeyPrefix maxRows family table (.ok rr) (.ok rows)
      = { events := Event.readerGetRowsByKeyPfx family table (keysToInterface rr.Key)
            :: (scanLoop maxRows rows.entries []).1 ++ [Event.cursorClose]
          written := none
          err := some he } := by
  simp only [getRowsByKeyPrefix]
  rw [h]

/-- Shape of the prefix-scan handler when the loop completes but the
cursor reports an iteration error. -/
theorem getRBKP_final_error (maxRows : Int) (family table : String) (rr : ReadRequest)
    (rows : RowsCursor) (res : List Row) (e : String)
    (h : (scanLoop maxRows rows.entries []).2 = .ok res)
    (hfe : rows.finalErr = some e) :
    getRowsByKeyPrefix maxRows family table (.ok rr) (.ok rows)
      = { events := Event.readerGetRowsByKeyPfx family table (keysToInterface rr.Key)
            :: (scanLoop maxRows rows.entries []).1 ++ [Event.cursorClose]
          written := none
          err := some (.readerErr e) } := by
  simp only [getRowsByKeyPrefix]
  rw [h, hfe]

/-- Shape of the prefix-scan handler on the success path. -/
theorem getRBKP_success (maxRows : Int) (family table : String) (rr : ReadRequest)
    (rows : RowsCursor) (res : List Row)
    (h : (scanLoop maxRows rows.entries []).2 = .ok res)
    (hfe : rows.finalErr = none) :
    getRowsByKeyPrefix maxRows family table (.ok rr) (.ok rows)
      = { events := Event.readerGetRowsByKeyPfx family table (keysToInterface rr.Key)
            :: (scanLoop maxRows rows.entries []).1
              ++ [Event.writeBody (.jsonArray res), Event.cursorClose]
          written := some { status := 200, headers := [], body := .jsonArray res }
          err := none } := by
  simp only [getRowsByKeyPrefix]
  rw [h, hfe]

/-- Claim C1, counterexample: the claim states that a segment whose
binary payload is empty resolves to its scalar value, but `ToValue`
tests `k.Binary != nil`, so a present-but-empty binary payload (as
produced by decoding `"Binary": ""`) is returned as the empty byte
value, not as the scalar value also present on the segment. -/
theorem C1_counterexample :
    Key.ToValue { Value := .num 5, Binary := some [] } = .bytes []
    ∧ Key.ToValue { Value := .num 5, Binary := some [] } ≠ .num 5 := by
  decide

/-- Claim C1 (amended): resolving a key segment returns the binary
payload whenever the `Binary` field is present (non-nil), even when it
is empty, and returns the scalar value (which is the nil zero value
when absent) exactly when `Binary` is nil. -/
theorem C1_resolve_binary_wins (k : Key) :
    (∀ b, k.Binary = some b → k.ToValue = GoVal.bytes b)
    ∧ (k.Binary = none → k.ToValue = k.Value) := by
  constructor
  · intro b hb
    simp [Key.ToValue, hb]
  · intro hb
    simp [Key.ToValue, hb]

/-- Witness for the amended C1 at concrete segments: a present binary
payload wins over the scalar, an absent one falls back to the scalar. -/
theorem C1_witness :
    Key.ToValue { Value := .num 5, Binary := some [7] } = .bytes [7]
    ∧ Key.ToValue { Value := .num 5, Binary := none } = .num 5 :=
  ⟨(C1_resolve_binary_wins { Value := .num 5, Binary := some [7] }).1 [7] rfl,
   (C1_resolve_binary_wins { Value := .num 5, Binary := none }).2 rfl⟩

/-- Claim C3: when the reader lookup succeeds with found = false, the
handler sets the distinguishing `X-Ctlstore: Not Found` header, writes
HTTP 404 with an empty body, and returns no handler-level error, so the
translator's 500 path is never taken for this case. -/
theorem C3_not_found_marker (family table : String) (rr : ReadRequest) (row : Row) :
    ( getRowByKey family table (.ok rr) (.ok (false, row))).err = none
    ∧ ( getRowByKey family table (.ok rr) (.ok (false, row))).written
        = some { status := 404, headers := [("X-Ctlstore", "Not Found")], body := .empty }
    ∧ handleErr ( getRowByKey family table (.ok rr) (.ok (false, row)))
        = { status := 404, headers := [("X-Ctlstore", "Not Found")], body := .empty } :=
  ⟨rfl, rfl, rfl⟩

/-- Claim C4: a malformed JSON body makes either POST handler fail with
the decode error, translated to HTTP 500, and the reader capability is
never invoked on that request (the event trace is empty). -/
theorem C4_decode_error_no_reader (maxRows : Int) (family table msg : String)
    (scan : Except String RowsCursor) (lookup : Except String (Bool × Row)) :
    ( getRowsByKeyPrefix maxRows family table (.error msg) scan).events = []
    ∧ ( getRowsByKeyPrefix maxRows family table (.error msg) scan).err
        = some (.decodeBody msg)
    ∧ handleErr ( getRowsByKeyPrefix maxRows family table (.error msg) scan)
        = { status := 500, headers := [], body := .text ("decode body: " ++ msg) }
    ∧ ( getRowByKey family table (.error msg) lookup).events = []
    ∧ ( getRowByKey family table (.error msg) lookup).err = some (.decodeBody msg)
    ∧ handleErr ( getRowByKey family table (.error msg) lookup)
        = { status := 500, headers := [], body := .text ("decode body: " ++ msg) } :=
  ⟨rfl, rfl, rfl, rfl, rfl, rfl⟩

/-- Claim C7: for every outcome of the ledger-latency query, /ping
produces exactly the same handler outcome, and hence the same
translated status and body, as /healthcheck. -/
theorem C7_ping_equals_healthcheck (latency : Except String Int) :
    handleErr (ping latency) = handleErr (healthcheck latency)
    ∧ ping latency = healthcheck latency :=
  ⟨rfl, rfl⟩

/-- Claim C8: a successful latency query for a duration of d
nanoseconds yields a 200 response whose JSON object carries d expressed
in seconds under "value" and the string "seconds" under "unit"; at 1.5
seconds (1500000000 ns) the value is exactly 3/2. -/
theorem C8_ledger_latency_body (d : Int) :
    handleErr ( getLedgerLatency (.ok d))
      = { status := 200, headers := []
          body := .jsonObject
            [("value", .num (durationSeconds d)), ("unit", .str "seconds")] }
    ∧ durationSeconds 1500000000 = 3 / 2 := by
  refine ⟨rfl, ?_⟩
  have h1 : Int.tdiv 1500000000 1000000000 = 1 := by decide
  have h2 : Int.tmod 1500000000 1000000000 = 500000000 := by decide
  unfold durationSeconds
  rw [h1, h2]
  norm_num

/-- Claim C9: converting a list of key segments to positional arguments
yields a list of the same length whose i-th element is the resolution
of the i-th segment, so segment order is preserved end-to-end into the
argument list passed to the reader. -/
theorem C9_order_preserved (keys : List Key) :
    (keysToInterface keys).length = keys.length
    ∧ ∀ (i : Nat) (h1 : i < (keysToInterface keys).length) (h2 : i < keys.length),
        (keysToInterface keys).get ⟨i, h1⟩ = (keys.get ⟨i, h2⟩).ToValue := by
  constructor
  · rw [keysToInterface_eq_map]
    simp
  · intro i h1 h2
    simp [keysToInterface_eq_map]

/-- Witness for C9 at a concrete two-segment request: the second
positional argument is the resolution of the second segment. -/
theorem C9_witness :
    (keysToInterface
        [{ Value := .num 1, Binary := none }, { Value := .num 2, Binary := some [3] }]).get
        ⟨1, by decide⟩
      = Key.ToValue { Value := .num 2, Binary := some [3] } :=
  (C9_order_preserved
      [{ Value := .num 1, Binary := none }, { Value := .num 2, Binary := some [3] }]).2
    1 (by decide) (by decide)

/-- Claim C6: whenever a cursor is acquired (the body decoded and the
reader's scan call succeeded), the cursor close is observed exactly
once in the handler's trace, on every exit path: success, mid-iteration
scan error, cursor iteration error, and row-limit abort. -/
theorem C6_cursor_closed_once (maxRows : Int) (family table : String)
    (rr : ReadRequest) (rows : RowsCursor) :
    countEvent Event.cursorClose
      ( getRowsByKeyPrefix maxRows family table (.ok rr) (.ok rows)).events = 1 := by
  cases hloop : (scanLoop maxRows rows.entries []).2 with
  | error he =>
      rw [getRBKP_loop_error maxRows family table rr rows he hloop]
      simp [countEvent, countEvent_append, scanLoop_count_close]
  | ok res =>
      cases hfe : rows.finalErr with
      | some e =>
          rw [getRBKP_final_error maxRows family table rr rows res e hloop hfe]
          simp [countEvent, countEvent_append, scanLoop_count_close]
      | none =>
          rw [getRBKP_success maxRows family table rr rows res hloop hfe]
          simp [countEvent, countEvent_append, scanLoop_count_close]

/-- Claim C10: with a non-positive configured maxRows (which the int
config field admits) the prefix-scan handler never fails with the
row-limit error, regardless of what the cursor yields: the guard
`maxRows > 0 && len(res) > maxRows` is armed only for positive maxRows. -/
theorem C10_nonpositive_limit_unarmed (maxRows : Int) (hN : maxRows ≤ 0)
    (family table : String) (body : Except String ReadRequest)
    (scan : Except String RowsCursor) (m : Int) :
    ( getRowsByKeyPrefix maxRows family table body scan).err ≠ some (.rowLimit m) := by
  cases body with
  | error e => simp [getRowsByKeyPrefix]
  | ok rr =>
      cases scan with
      | error e => simp [getRowsByKeyPrefix]
      | ok rows =>
          cases hloop : (scanLoop maxRows rows.entries []).2 with
          | error he =>
              rw [getRBKP_loop_error maxRows family table rr rows he hloop]
              intro hcontra
              have heq : he = .rowLimit m := Option.some.inj hcontra
              exact scanLoop_no_rowLimit maxRows hN rows.entries [] m
                (by rw [hloop, heq])
          | ok res =>
              cases hfe : rows.finalErr with
              | some e =>
                  rw [getRBKP_final_error maxRows family table rr rows res e hloop hfe]
                  simp
              | none =>
                  rw [getRBKP_success maxRows family table rr rows res hloop hfe]
                  simp

/-- Witness for C10: with maxRows = 0 and a cursor yielding three rows
the handler does not fail with the row-limit error. -/
theorem C10_witness :
    (0 : Int) ≤ 0
    ∧ ( getRowsByKeyPrefix 0 "f" "t" (.ok { Key := [] })
          (.ok { entries := [.ok ([] : Row), .ok [], .ok []], finalErr := none })).err
        ≠ some (.rowLimit 0) :=
  ⟨le_refl 0,
   C10_nonpositive_limit_unarmed 0 (le_refl 0) "f" "t" (.ok { Key := [] })
     (.ok { entries := [.ok ([] : Row), .ok [], .ok []], finalErr := none }) 0⟩

/-- Claim C2: with a configured ceiling maxRows ≥ 1 and an error-free
cursor, the prefix-scan handler fails with the row-limit error naming
maxRows exactly when the cursor yields more than maxRows rows; the
check runs strictly after an append, so in that case maxRows + 1 rows
were fetched and decoded before the abort, and the translated response
is a 500 whose text names the ceiling; with at most maxRows rows (and
no iteration error) the handler responds 200 with a JSON array of
exactly those rows in cursor order. -/
theorem C2_row_limit (maxRows : Int) (hN : 1 ≤ maxRows) (family table : String)
    (rr : ReadRequest) (rows : List Row) (fe : Option String) :
    (( getRowsByKeyPrefix maxRows family table (.ok rr)
          (.ok { entries := rows.map .ok, finalErr := fe })).err
        = some (.rowLimit maxRows)
      ↔ maxRows < (rows.length : Int))
    ∧ (maxRows < (rows.length : Int) →
        (countEvent Event.cursorScan
            ( getRowsByKeyPrefix maxRows family table (.ok rr)
                (.ok { entries := rows.map .ok, finalErr := fe })).events : Int)
          = maxRows + 1
        ∧ handleErr ( getRowsByKeyPrefix maxRows family table (.ok rr)
              (.ok { entries := rows.map .ok, finalErr := fe }))
          = { status := 500, headers := []
              body := .text ("max row count (" ++ toString maxRows ++ ") exceeded") })
    ∧ (fe = none → (rows.length : Int) ≤ maxRows →
        handleErr ( getRowsByKeyPrefix maxRows family table (.ok rr)
              (.ok { entries := rows.map .ok, finalErr := fe }))
          = { status := 200, headers := [], body := .jsonArray rows }) := by
  by_cases hlen : maxRows < (rows.length : Int)
  · obtain ⟨hloop, hcount⟩ :=
      scanLoop_map_ok_abort maxRows (by omega) rows []
        (by simp only [List.length_nil, Nat.cast_zero]; omega)
        (by simp only [List.length_nil, Nat.cast_zero]; omega)
    simp only [List.length_nil, Nat.cast_zero] at hcount
    have hshape := getRBKP_loop_error maxRows family table rr
      { entries := rows.map .ok, finalErr := fe } (.rowLimit maxRows) hloop
    refine ⟨?_, ?_, ?_⟩
    · rw [hshape]
      simp [hlen]
    · intro _
      constructor
      · rw [hshape]
        show (countEvent Event.cursorScan
            (Event.readerGetRowsByKeyPfx family table (keysToInterface rr.Key)
              :: ((scanLoop maxRows (rows.map .ok) []).1 ++ [Event.cursorClose])) : Int)
          = maxRows + 1
        rw [countEvent_cons, countEvent_append]
        simp only [countEvent]
        simp
        omega
      · rw [hshape]
        rfl
    · intro _ hle
      omega
  · have hloop : (scanLoop maxRows (rows.map .ok) []).2 = .ok rows := by
      have hle := scanLoop_map_ok_le maxRows rows []
        (Or.inr (by simp only [List.length_nil, Nat.cast_zero]; omega))
      simpa using hle
    refine ⟨?_, ?_, ?_⟩
    · constructor
      · intro hcontra
        exfalso
        cases hfe : fe with
        | some e =>
            rw [getRBKP_final_error maxRows family table rr
              { entries := rows.map .ok, finalErr := fe } rows e hloop hfe] at hcontra
            simp at hcontra
        | none =>
            rw [getRBKP_success maxRows family table rr
              { entries := rows.map .ok, finalErr := fe } rows hloop hfe] at hcontra
            simp at hcontra
      · intro hcontra
        exact absurd hcontra hlen
    · intro hcontra
      exact absurd hcontra hlen
    · intro hfe _
      rw [getRBKP_success maxRows family table rr
        { entries := rows.map .ok, finalErr := fe } rows hloop hfe]
      rfl

/-- Witness for C2: ceiling 2 with a three-row cursor fails with the
row-limit error; ceiling 2 with a two-row cursor responds 200 with
exactly those two rows in order. -/
theorem C2_witness :
    ( getRowsByKeyPrefix 2 "f" "t" (.ok { Key := [] })
        (.ok { entries := ([[("a", .num 1)], [("a", .num 2)], [("a", .num 3)]] : List Row).map .ok
               finalErr := none })).err = some (.rowLimit 2)
    ∧ handleErr ( getRowsByKeyPrefix 2 "f" "t" (.ok { Key := [] })
        (.ok { entries := ([[("a", .num 1)], [("a", .num 2)]] : List Row).map .ok
               finalErr := none }))
      = { status := 200, headers := []
          body := .jsonArray [[("a", .num 1)], [("a", .num 2)]] } :=
  ⟨((C2_row_limit 2 (by norm_num) "f" "t" { Key := [] }
        [[("a", .num 1)], [("a", .num 2)], [("a", .num 3)]] none).1).mpr (by norm_num),
   (C2_row_limit 2 (by norm_num) "f" "t" { Key := [] }
        [[("a", .num 1)], [("a", .num 2)]] none).2.2 rfl (by norm_num)⟩

/-- Claim C5: nothing is written to the response before the complete
accumulated list is known: on any failure of the prefix-scan handler
(decode error, reader error, scan error, or row-limit violation) the
trace contains no body write and the translated response carries only
the error text; on success the entire list is written once as a single
JSON array with status 200. -/
theorem C5_no_partial_writes (maxRows : Int) (family table : String)
    (body : Except String ReadRequest) (scan : Except String RowsCursor) :
    (∀ he, ( getRowsByKeyPrefix maxRows family table body scan).err = some he →
        handleErr ( getRowsByKeyPrefix maxRows family table body scan)
          = { status := 500, headers := [], body := .text he.text }
        ∧ ∀ b, Event.writeBody b ∉ ( getRowsByKeyPrefix maxRows family table body scan).events)
    ∧ (( getRowsByKeyPrefix maxRows family table body scan).err = none →
        ∃ res, handleErr ( getRowsByKeyPrefix maxRows family table body scan)
            = { status := 200, headers := [], body := .jsonArray res }
          ∧ countEvent (Event.writeBody (.jsonArray res))
              ( getRowsByKeyPrefix maxRows family table body scan).events = 1) := by
  cases body with
  | error e =>
      refine ⟨?_, ?_⟩
      · intro he hhe
        have heq : HErr.decodeBody e = he := Option.some.inj hhe
        subst heq
        exact ⟨rfl, by simp [getRowsByKeyPrefix]⟩
      · intro hnone
        exact absurd hnone (by simp [getRowsByKeyPrefix])
  | ok rr =>
      cases scan with
      | error e =>
          refine ⟨?_, ?_⟩
          · intro he hhe
            have heq : HErr.readerErr e = he := Option.some.inj hhe
            subst heq
            exact ⟨rfl, by simp [getRowsByKeyPrefix]⟩
          · intro hnone
            exact absurd hnone (by simp [getRowsByKeyPrefix])
      | ok rows =>
          cases hloop : (scanLoop maxRows rows.entries []).2 with
          | error he' =>
              have hshape := getRBKP_loop_error maxRows family table rr rows he' hloop
              refine ⟨?_, ?_⟩
              · intro he hhe
                rw [hshape] at hhe ⊢
                have heq : he' = he := Option.some.inj hhe
                subst heq
                refine ⟨rfl, ?_⟩
                intro b
                simp [scanLoop_not_mem_writeBody maxRows rows.entries [] b]
              · intro hnone
                rw [hshape] at hnone
                exact absurd hnone (by simp)
          | ok res =>
              cases hfe : rows.finalErr with
              | some e =>
                  have hshape := getRBKP_final_error maxRows family table rr rows res e hloop hfe
                  refine ⟨?_, ?_⟩
                  · intro he hhe
                    rw [hshape] at hhe ⊢
                    have heq : HErr.readerErr e = he := Option.some.inj hhe
                    subst heq
                    refine ⟨rfl, ?_⟩
                    intro b
                    simp [scanLoop_not_mem_writeBody maxRows rows.entries [] b]
                  · intro hnone
                    rw [hshape] at hnone
                    exact absurd hnone (by simp)
              | none =>
                  have hshape := getRBKP_success maxRows family table rr rows res hloop hfe
                  refine ⟨?_, ?_⟩
                  · intro he hhe
                    rw [hshape] at hhe
                    exact absurd hhe (by simp)
                  · intro _
                    refine ⟨res, ?_, ?_⟩
                    · rw [hshape]
                      rfl
                    · rw [hshape]
                      simp [countEvent, countEvent_append, scanLoop_count_writeBody]

/-- Witness for C5: a successful empty scan responds 200 with the empty
JSON array, written exactly once. -/
theorem C5_witness :
    ∃ res, handleErr ( getRowsByKeyPrefix 0 "f" "t" (.ok { Key := [] })
        (.ok { entries := [], finalErr := none }))
        = { status := 200, headers := [], body := .jsonArray res }
      ∧ countEvent (Event.writeBody (.jsonArray res))
          ( getRowsByKeyPrefix 0 "f" "t" (.ok { Key := [] })
            (.ok { entries := [], finalErr := none })).events = 1 :=
  (C5_no_partial_writes 0 "f" "t" (.ok { Key := [] })
      (.ok { entries := [], finalErr := none })).2 rfl

end CtlstoreSidecar
